import Mathlib

/-!
Verification of the folder-timestamps analyzer (src/folder-timestamps.ts).

The program recursively scans a directory tree and, per directory, records
the latest file creation/modification timestamps, the direct file count and
the cumulative file count, then renders the records as a table.

Shallow embedding conventions:
  - Timestamps are integers (epoch milliseconds); JavaScript `Date` values
    are compared by their numeric value, which the `>` used by the source
    performs.
  - The filesystem seen by the scan is a tree: a directory's enumeration
    (`Deno.readDir`) either fails (`FsListing.fail`, the `catch` branch of
    `scanDirectory`) or yields a finite sequence of entries
    (`FsListing.ok`).  A file entry carries the result of the `Deno.stat`
    call performed by `getFileStats` (`none` models a stat failure, which
    `getFileStats` catches and turns into null timestamps; a successful
    stat can still report null fields).  An `other` entry models anything
    that is neither a plain file nor a directory (symlink, device, ...),
    which the scan ignores.
  - The platform flag `w` models `Deno.build.os === "windows"` and selects
    the path separator, exactly as the source computes it.
  - JavaScript strings are modelled as Lean strings; the string operations
    used by the source (startsWith, endsWith, substring from an index,
    global replace of backslashes) are modelled on the character list.
-/

/-- Result of `getFileStats`: the `birthtime` and `mtime` fields of a stat,
either of which may be null. -/
structure FileStats where
  birthtime : Option Int
  mtime : Option Int
  deriving DecidableEq

/-- The per-directory record built by `scanDirectory` (interface
`FolderStats` in the source). -/
structure FolderStats where
  path : String
  latestCreated : Option Int
  latestModified : Option Int
  fileCount : Nat
  cumulativeFileCount : Nat
  deriving DecidableEq

mutual
/-- What `Deno.readDir` yields for one directory: either the iteration
throws (`fail`, caught by `scanDirectory`) or it produces a sequence of
entries. -/
inductive FsListing : Type where
  | fail
  | ok (entries : FsEntries)
/-- A finite sequence of directory entries, in enumeration order. -/
inductive FsEntries : Type where
  | nil
  | cons (e : FsEntry) (rest : FsEntries)
/-- One directory entry.  A file carries the outcome of statting it
(`none` = the stat throws); a directory carries the outcome of listing
it; an `other` entry is neither a plain file nor a directory. -/
inductive FsEntry : Type where
  | file (name : String) (stat : Option FileStats)
  | dir (name : String) (listing : FsListing)
  | other (name : String)
end

/-- The platform path separator, from the expression
`Deno.build.os === "windows" ? "\\" : "/"` used throughout the source. -/
def sep (w : Bool) : String := if w then "\\" else "/"

/-- Model of `getFileStats` (source lines 103-116): stat the file and
return its birthtime and mtime; on failure return null for both. -/
def getFileStats : Option FileStats → FileStats
  | some s => s
  | none => { birthtime := none, mtime := none }

/-- The freshly initialized record for a directory (source lines 128-134):
identity values everywhere. -/
def emptyStat (p : String) : FolderStats :=
  { path := p, latestCreated := none, latestModified := none,
    fileCount := 0, cumulativeFileCount := 0 }

/-- The timestamp-raising step shared by the file branch and the
subdirectory branch of the scan: replace the current maximum when the
candidate exists and the current maximum is unset or strictly smaller. -/
def pushTime : Option Int → Option Int → Option Int
  | cur, none => cur
  | none, some b => some b
  | some c, some b => if b > c then some b else some c

/-- Processing of one file entry (source lines 140-163): both counters
increase by one and each timestamp is raised by the statted value. -/
def updateFile (f : FolderStats) (st : FileStats) : FolderStats :=
  { f with
    fileCount := f.fileCount + 1
    cumulativeFileCount := f.cumulativeFileCount + 1
    latestCreated := pushTime f.latestCreated st.birthtime
    latestModified := pushTime f.latestModified st.mtime }

/-- Folding one matching child record into the current record (source
lines 170-191, loop body): add the child's cumulative count and raise both
timestamps. -/
def foldChild (f : FolderStats) (c : FolderStats) : FolderStats :=
  { f with
    cumulativeFileCount := f.cumulativeFileCount + c.cumulativeFileCount
    latestCreated := pushTime f.latestCreated c.latestCreated
    latestModified := pushTime f.latestModified c.latestModified }

/-- The source's `for (const subStat of subStats) if (subStat.path ===
fullPath) ...` loop: a left fold over the returned list that folds in
every record whose path equals the child's full path. -/
def childFold (fullPath : String) (fs : FolderStats) (subStats : List FolderStats) :
    FolderStats :=
  subStats.foldl (fun f s => if s.path = fullPath then foldChild f s else f) fs

/-- The entry loop of `scanDirectory` (source lines 137-193), given the
current record; returns the finalized record together with the descendant
records pushed onto the accumulator, in push order. -/
def scanEntries (w : Bool) (dirPath : String) (fs : FolderStats) :
    FsEntries → FolderStats × List FolderStats
  | FsEntries.nil => (fs, [])
  | FsEntries.cons (FsEntry.file _ st) rest =>
      scanEntries w dirPath (updateFile fs (getFileStats st)) rest
  | FsEntries.cons (FsEntry.other _) rest => scanEntries w dirPath fs rest
  | FsEntries.cons (FsEntry.dir name FsListing.fail) rest =>
      let fullPath := dirPath ++ sep w ++ name
      let subStats := [emptyStat fullPath]
      let r := scanEntries w dirPath (childFold fullPath fs subStats) rest
      (r.1, subStats ++ r.2)
  | FsEntries.cons (FsEntry.dir name (FsListing.ok es)) rest =>
      let fullPath := dirPath ++ sep w ++ name
      let rsub := scanEntries w fullPath (emptyStat fullPath) es
      let subStats := rsub.1 :: rsub.2
      let r := scanEntries w dirPath (childFold fullPath fs subStats) rest
      (r.1, subStats ++ r.2)

/-- Model of `scanDirectory` (source lines 124-202) at its call sites,
which all pass an empty accumulator: initialize the record, process the
entries (an enumeration failure is caught and leaves the record and the
accumulator untouched), then unshift the finalized record onto the
accumulated list and return it. -/
def scanDirectory (w : Bool) (dirPath : String) (listing : FsListing) :
    List FolderStats :=
  match listing with
  | FsListing.fail => [emptyStat dirPath]
  | FsListing.ok es =>
      let r := scanEntries w dirPath (emptyStat dirPath) es
      r.1 :: r.2

/-- The finalized record of the scanned directory itself: the first
element of the list `scanDirectory` returns. -/
def scanRoot (w : Bool) (dirPath : String) (listing : FsListing) :
    FolderStats :=
  match listing with
  | FsListing.fail => emptyStat dirPath
  | FsListing.ok es => (scanEntries w dirPath (emptyStat dirPath) es).1

/-- The descendant records of the scanned directory: everything after the
first element of the list `scanDirectory` returns. -/
def scanRest (w : Bool) (dirPath : String) (listing : FsListing) :
    List FolderStats :=
  match listing with
  | FsListing.fail => []
  | FsListing.ok es => (scanEntries w dirPath (emptyStat dirPath) es).2

theorem scanDirectory_eq_cons (w : Bool) (p : String) (l : FsListing) :
    scanDirectory w p l = scanRoot w p l :: scanRest w p l := by
  cases l <;> rfl

/-- Maximum of two optional timestamps, absent-is-neutral. -/
def omax : Option Int → Option Int → Option Int
  | none, b => b
  | some a, none => some a
  | some a, some b => some (max a b)

/-- Maximum of a list of timestamps, `none` on the empty list. -/
def listMax : List Int → Option Int
  | [] => none
  | x :: rest => omax (some x) (listMax rest)

theorem pushTime_none (a : Option Int) : pushTime a none = a := by
  cases a <;> rfl

theorem pushTime_eq_omax (a b : Option Int) : pushTime a b = omax a b := by
  cases a with
  | none => cases b <;> rfl
  | some c =>
    cases b with
    | none => rfl
    | some x =>
      simp only [pushTime, omax]
      rcases le_or_lt x c with h | h
      · rw [if_neg (by omega), max_eq_left h]
      · rw [if_pos h, max_eq_right (le_of_lt h)]

theorem omax_none_right (a : Option Int) : omax a none = a := by
  cases a <;> rfl

theorem omax_none_left (b : Option Int) : omax none b = b := rfl

theorem omax_assoc (a b c : Option Int) : omax (omax a b) c = omax a (omax b c) := by
  cases a <;> cases b <;> cases c <;> simp [omax, max_assoc]

theorem listMax_append (xs ys : List Int) :
    listMax (xs ++ ys) = omax (listMax xs) (listMax ys) := by
  induction xs with
  | nil => rfl
  | cons x xs ih => simp [listMax, ih, omax_assoc]

theorem listMax_eq_none_iff (l : List Int) : listMax l = none ↔ l = [] := by
  cases l with
  | nil => simp [listMax]
  | cons x rest =>
    simp only [listMax]
    cases listMax rest <;> simp [omax]

theorem listMax_mem (l : List Int) (m : Int) (h : listMax l = some m) : m ∈ l := by
  induction l with
  | nil => simp [listMax] at h
  | cons x rest ih =>
    simp only [listMax] at h
    cases hr : listMax rest with
    | none => rw [hr] at h; simp [omax] at h; simp [h]
    | some y =>
      rw [hr] at h
      simp only [omax, Option.some.injEq] at h
      rcases max_choice x y with hm | hm
      · simp [← h, hm]
      · exact List.mem_cons_of_mem _ (ih (by rw [hr, ← h, hm]))

theorem listMax_le (l : List Int) (x : Int) :
    ∀ m, x ∈ l → listMax l = some m → x ≤ m := by
  induction l with
  | nil => intro m hx _; simp at hx
  | cons a rest ih =>
    intro m hx h
    simp only [listMax] at h
    cases hr : listMax rest with
    | none =>
      rw [hr] at h
      rcases (listMax_eq_none_iff rest).mp hr with rfl
      simp only [omax, Option.some.injEq] at h
      simp at hx
      omega
    | some y =>
      rw [hr] at h
      simp only [omax, Option.some.injEq] at h
      rcases List.mem_cons.mp hx with rfl | hx'
      · have h1 := le_max_left x y
        omega
      · have h1 : x ≤ y := ih y hx' hr
        have h2 := le_max_right a y
        omega

theorem foldChild_path (f c : FolderStats) : (foldChild f c).path = f.path := rfl

theorem foldChild_fileCount (f c : FolderStats) :
    (foldChild f c).fileCount = f.fileCount := rfl

theorem updateFile_path (f : FolderStats) (st : FileStats) :
    (updateFile f st).path = f.path := rfl

theorem childFold_cons (q : String) (fs s : FolderStats) (t : List FolderStats) :
    childFold q fs (s :: t)
      = childFold q (if s.path = q then foldChild fs s else fs) t := rfl

theorem childFold_path (q : String) (L : List FolderStats) :
    ∀ fs : FolderStats, (childFold q fs L).path = fs.path := by
  induction L with
  | nil => intro fs; rfl
  | cons s t ih =>
    intro fs
    rw [childFold_cons, ih]
    by_cases h : s.path = q
    · rw [if_pos h, foldChild_path]
    · rw [if_neg h]

theorem childFold_nomatch (q : String) (L : List FolderStats)
    (h : ∀ s ∈ L, s.path ≠ q) : ∀ fs : FolderStats, childFold q fs L = fs := by
  induction L with
  | nil => intro fs; rfl
  | cons s t ih =>
    intro fs
    rw [childFold_cons, if_neg (h s (by simp))]
    exact ih (fun s hs => h s (List.mem_cons_of_mem _ hs)) fs

theorem sep_length (w : Bool) : (sep w).length = 1 := by cases w <;> rfl

theorem scanEntries_fst_path (w : Bool) (p : String) (fs : FolderStats)
    (es : FsEntries) : (scanEntries w p fs es).1.path = fs.path := by
  induction p, fs, es using scanEntries.induct w
  all_goals simp_all +zetaDelta [scanEntries, updateFile_path, childFold_path]

theorem scanRoot_path (w : Bool) (p : String) (l : FsListing) :
    (scanRoot w p l).path = p := by
  cases l with
  | fail => rfl
  | ok es =>
    show (scanEntries w p (emptyStat p) es).1.path = p
    rw [scanEntries_fst_path]
    rfl

theorem scanEntries_rest_path_len (w : Bool) (p : String) (fs : FolderStats)
    (es : FsEntries) :
    ∀ s ∈ (scanEntries w p fs es).2, p.length < s.path.length := by
  induction p, fs, es using scanEntries.induct w with
  | case1 p fs => intro s hs; simp [scanEntries] at hs
  | case2 p fs name st rest ih =>
    intro s hs
    exact ih s (by simpa [scanEntries] using hs)
  | case3 p fs name rest ih =>
    intro s hs
    exact ih s (by simpa [scanEntries] using hs)
  | case4 p fs name rest full subL ih =>
    intro s hs
    simp only [scanEntries, List.cons_append, List.nil_append, List.mem_cons] at hs
    rcases hs with rfl | hs
    · simp [emptyStat, String.length_append, sep_length]
      omega
    · exact ih s hs
  | case5 p fs name es rest full rsub subL ihsub ih =>
    intro s hs
    simp only [scanEntries, List.cons_append, List.mem_cons, List.mem_append] at hs
    have hfull : p.length < (p ++ sep w ++ name).length := by
      simp [String.length_append, sep_length]
      omega
    rcases hs with rfl | hs | hs
    · rw [scanEntries_fst_path]
      simpa [emptyStat] using hfull
    · have hfe : full = p ++ sep w ++ name := rfl
      have h2 := ihsub s hs
      rw [hfe] at h2
      omega
    · exact ih s hs

theorem scanRest_path_len (w : Bool) (p : String) (l : FsListing) :
    ∀ s ∈ scanRest w p l, p.length < s.path.length := by
  cases l with
  | fail => intro s hs; simp [scanRest] at hs
  | ok es => exact scanEntries_rest_path_len w p (emptyStat p) es

theorem scanRest_path_ne (w : Bool) (p : String) (l : FsListing) :
    ∀ s ∈ scanRest w p l, s.path ≠ p := by
  intro s hs h
  have := scanRest_path_len w p l s hs
  rw [h] at this
  omega

theorem foldChild_emptyStat (fs : FolderStats) (q : String) :
    foldChild fs (emptyStat q) = fs := by
  simp [foldChild, emptyStat, pushTime_none]

theorem childFold_emptyList (q : String) (fs : FolderStats) :
    childFold q fs [emptyStat q] = fs := by
  rw [childFold_cons, if_pos (show (emptyStat q).path = q from rfl)]
  exact foldChild_emptyStat fs q

theorem childFold_scanPair (w : Bool) (q : String) (es : FsEntries) (fs : FolderStats) :
    childFold q fs
      ((scanEntries w q (emptyStat q) es).1 :: (scanEntries w q (emptyStat q) es).2)
      = foldChild fs (scanEntries w q (emptyStat q) es).1 := by
  have hroot : (scanEntries w q (emptyStat q) es).1.path = q := by
    rw [scanEntries_fst_path]; rfl
  rw [childFold_cons, if_pos hroot]
  apply childFold_nomatch
  intro s hs h
  have := scanEntries_rest_path_len w q (emptyStat q) es s hs
  rw [h] at this
  omega

theorem emptyStat_fileCount (p : String) : (emptyStat p).fileCount = 0 := rfl

theorem emptyStat_cum (p : String) : (emptyStat p).cumulativeFileCount = 0 := rfl

theorem emptyStat_created (p : String) : (emptyStat p).latestCreated = none := rfl

theorem emptyStat_modified (p : String) : (emptyStat p).latestModified = none := rfl

theorem foldChild_cum (f c : FolderStats) :
    (foldChild f c).cumulativeFileCount
      = f.cumulativeFileCount + c.cumulativeFileCount := rfl

theorem foldChild_created (f c : FolderStats) :
    (foldChild f c).latestCreated = pushTime f.latestCreated c.latestCreated := rfl

theorem foldChild_modified (f c : FolderStats) :
    (foldChild f c).latestModified = pushTime f.latestModified c.latestModified := rfl

theorem updateFile_fileCount (f : FolderStats) (st : FileStats) :
    (updateFile f st).fileCount = f.fileCount + 1 := rfl

theorem updateFile_cum (f : FolderStats) (st : FileStats) :
    (updateFile f st).cumulativeFileCount = f.cumulativeFileCount + 1 := rfl

theorem updateFile_created (f : FolderStats) (st : FileStats) :
    (updateFile f st).latestCreated = pushTime f.latestCreated st.birthtime := rfl

theorem updateFile_modified (f : FolderStats) (st : FileStats) :
    (updateFile f st).latestModified = pushTime f.latestModified st.mtime := rfl

/-- Number of file entries directly in an entry sequence. -/
def countFiles : FsEntries → Nat
  | FsEntries.nil => 0
  | FsEntries.cons (FsEntry.file _ _) rest => countFiles rest + 1
  | FsEntries.cons (FsEntry.dir _ _) rest => countFiles rest
  | FsEntries.cons (FsEntry.other _) rest => countFiles rest

/-- Number of file entries in an entry sequence, nested directories
included (an unreadable directory contributes nothing, since the scan
never sees its contents). -/
def countAllFiles : FsEntries → Nat
  | FsEntries.nil => 0
  | FsEntries.cons (FsEntry.file _ _) rest => countAllFiles rest + 1
  | FsEntries.cons (FsEntry.dir _ FsListing.fail) rest => countAllFiles rest
  | FsEntries.cons (FsEntry.dir _ (FsListing.ok es)) rest =>
      countAllFiles es + countAllFiles rest
  | FsEntries.cons (FsEntry.other _) rest => countAllFiles rest

/-- Number of files in the subtree below a directory with this listing. -/
def subtreeFiles : FsListing → Nat
  | FsListing.fail => 0
  | FsListing.ok es => countAllFiles es

/-- Number of file entries directly below a directory with this listing. -/
def directFiles : FsListing → Nat
  | FsListing.fail => 0
  | FsListing.ok es => countFiles es

theorem scanEntries_fileCount (w : Bool) (p : String) (fs : FolderStats)
    (es : FsEntries) :
    (scanEntries w p fs es).1.fileCount = fs.fileCount + countFiles es := by
  induction p, fs, es using scanEntries.induct w
  all_goals simp_all +zetaDelta [scanEntries, countFiles, updateFile_fileCount,
    childFold_emptyList, childFold_scanPair, foldChild_fileCount]
  all_goals omega

theorem scanEntries_cum (w : Bool) (p : String) (fs : FolderStats)
    (es : FsEntries) :
    (scanEntries w p fs es).1.cumulativeFileCount
      = fs.cumulativeFileCount + countAllFiles es := by
  induction p, fs, es using scanEntries.induct w
  all_goals simp_all +zetaDelta [scanEntries, countAllFiles, updateFile_cum,
    childFold_emptyList, childFold_scanPair, foldChild_cum, emptyStat_cum]
  all_goals omega

theorem scanRoot_fileCount (w : Bool) (p : String) (l : FsListing) :
    (scanRoot w p l).fileCount = directFiles l := by
  cases l with
  | fail => rfl
  | ok es =>
    show (scanEntries w p (emptyStat p) es).1.fileCount = countFiles es
    rw [scanEntries_fileCount, emptyStat_fileCount, Nat.zero_add]

theorem scanRoot_cum (w : Bool) (p : String) (l : FsListing) :
    (scanRoot w p l).cumulativeFileCount = subtreeFiles l := by
  cases l with
  | fail => rfl
  | ok es =>
    show (scanEntries w p (emptyStat p) es).1.cumulativeFileCount = countAllFiles es
    rw [scanEntries_cum, emptyStat_cum, Nat.zero_add]

/-- The creation times known to the scan for every file in an entry
sequence, in traversal order: a file contributes the birthtime that
`getFileStats` reports for it (nothing on a stat failure or a null
birthtime), an unreadable directory contributes nothing. -/
def entriesCreated : FsEntries → List Int
  | FsEntries.nil => []
  | FsEntries.cons (FsEntry.file _ st) rest =>
      (getFileStats st).birthtime.toList ++ entriesCreated rest
  | FsEntries.cons (FsEntry.dir _ FsListing.fail) rest => entriesCreated rest
  | FsEntries.cons (FsEntry.dir _ (FsListing.ok es)) rest =>
      entriesCreated es ++ entriesCreated rest
  | FsEntries.cons (FsEntry.other _) rest => entriesCreated rest

/-- The modification times known to the scan for every file in an entry
sequence; the mtime analogue of `entriesCreated`. -/
def entriesModified : FsEntries → List Int
  | FsEntries.nil => []
  | FsEntries.cons (FsEntry.file _ st) rest =>
      (getFileStats st).mtime.toList ++ entriesModified rest
  | FsEntries.cons (FsEntry.dir _ FsListing.fail) rest => entriesModified rest
  | FsEntries.cons (FsEntry.dir _ (FsListing.ok es)) rest =>
      entriesModified es ++ entriesModified rest
  | FsEntries.cons (FsEntry.other _) rest => entriesModified rest

/-- Known creation times of all files in the subtree below a directory
with this listing. -/
def subtreeCreated : FsListing → List Int
  | FsListing.fail => []
  | FsListing.ok es => entriesCreated es

/-- Known modification times of all files in the subtree below a directory
with this listing. -/
def subtreeModified : FsListing → List Int
  | FsListing.fail => []
  | FsListing.ok es => entriesModified es

theorem listMax_optToList (b : Option Int) : listMax b.toList = b := by
  cases b <;> rfl

theorem scanEntries_created (w : Bool) (p : String) (fs : FolderStats)
    (es : FsEntries) :
    (scanEntries w p fs es).1.latestCreated
      = omax fs.latestCreated (listMax (entriesCreated es)) := by
  induction p, fs, es using scanEntries.induct w
  all_goals simp_all +zetaDelta [scanEntries, entriesCreated, listMax,
    listMax_append, listMax_optToList, pushTime_eq_omax, omax_assoc,
    omax_none_right, omax_none_left, updateFile_created, foldChild_created,
    childFold_emptyList, childFold_scanPair, emptyStat_created]

theorem scanEntries_modified (w : Bool) (p : String) (fs : FolderStats)
    (es : FsEntries) :
    (scanEntries w p fs es).1.latestModified
      = omax fs.latestModified (listMax (entriesModified es)) := by
  induction p, fs, es using scanEntries.induct w
  all_goals simp_all +zetaDelta [scanEntries, entriesModified, listMax,
    listMax_append, listMax_optToList, pushTime_eq_omax, omax_assoc,
    omax_none_right, omax_none_left, updateFile_modified, foldChild_modified,
    childFold_emptyList, childFold_scanPair, emptyStat_modified]

theorem scanRoot_created (w : Bool) (p : String) (l : FsListing) :
    (scanRoot w p l).latestCreated = listMax (subtreeCreated l) := by
  cases l with
  | fail => rfl
  | ok es =>
    show (scanEntries w p (emptyStat p) es).1.latestCreated
      = listMax (entriesCreated es)
    rw [scanEntries_created, emptyStat_created]
    rfl

theorem scanRoot_modified (w : Bool) (p : String) (l : FsListing) :
    (scanRoot w p l).latestModified = listMax (subtreeModified l) := by
  cases l with
  | fail => rfl
  | ok es =>
    show (scanEntries w p (emptyStat p) es).1.latestModified
      = listMax (entriesModified es)
    rw [scanEntries_modified, emptyStat_modified]
    rfl

theorem scanEntries_rest_created (w : Bool) (p : String) (fs : FolderStats)
    (es : FsEntries) :
    ∀ s ∈ (scanEntries w p fs es).2, ∀ m : Int,
      s.latestCreated = some m → m ∈ entriesCreated es := by
  induction p, fs, es using scanEntries.induct w with
  | case1 p fs => intro s hs; simp [scanEntries] at hs
  | case2 p fs name st rest ih =>
    intro s hs m hm
    simp only [entriesCreated, List.mem_append]
    exact Or.inr (ih s (by simpa [scanEntries] using hs) m hm)
  | case3 p fs name rest ih =>
    intro s hs m hm
    simp only [entriesCreated]
    exact ih s (by simpa [scanEntries] using hs) m hm
  | case4 p fs name rest full subL ih =>
    intro s hs m hm
    simp only [scanEntries, List.cons_append, List.nil_append, List.mem_cons] at hs
    simp only [entriesCreated]
    rcases hs with rfl | hs
    · simp [emptyStat_created] at hm
    · exact ih s hs m hm
  | case5 p fs name es rest full rsub subL ihsub ih =>
    intro s hs m hm
    simp only [scanEntries, List.cons_append, List.mem_cons, List.mem_append] at hs
    simp only [entriesCreated, List.mem_append]
    rcases hs with rfl | hs | hs
    · rw [scanEntries_created, emptyStat_created, omax_none_left] at hm
      exact Or.inl (listMax_mem _ m hm)
    · exact Or.inl (ihsub s hs m hm)
    · exact Or.inr (ih s hs m hm)

theorem scanEntries_rest_modified (w : Bool) (p : String) (fs : FolderStats)
    (es : FsEntries) :
    ∀ s ∈ (scanEntries w p fs es).2, ∀ m : Int,
      s.latestModified = some m → m ∈ entriesModified es := by
  induction p, fs, es using scanEntries.induct w with
  | case1 p fs => intro s hs; simp [scanEntries] at hs
  | case2 p fs name st rest ih =>
    intro s hs m hm
    simp only [entriesModified, List.mem_append]
    exact Or.inr (ih s (by simpa [scanEntries] using hs) m hm)
  | case3 p fs name rest ih =>
    intro s hs m hm
    simp only [entriesModified]
    exact ih s (by simpa [scanEntries] using hs) m hm
  | case4 p fs name rest full subL ih =>
    intro s hs m hm
    simp only [scanEntries, List.cons_append, List.nil_append, List.mem_cons] at hs
    simp only [entriesModified]
    rcases hs with rfl | hs
    · simp [emptyStat_modified] at hm
    · exact ih s hs m hm
  | case5 p fs name es rest full rsub subL ihsub ih =>
    intro s hs m hm
    simp only [scanEntries, List.cons_append, List.mem_cons, List.mem_append] at hs
    simp only [entriesModified, List.mem_append]
    rcases hs with rfl | hs | hs
    · rw [scanEntries_modified, emptyStat_modified, omax_none_left] at hm
      exact Or.inl (listMax_mem _ m hm)
    · exact Or.inl (ihsub s hs m hm)
    · exact Or.inr (ih s hs m hm)

/-- Full paths of the directories in an entry sequence, in the order the
scan discovers them (each directory immediately followed by its own
subtree's directories). -/
def forestPaths (w : Bool) (p : String) : FsEntries → List String
  | FsEntries.nil => []
  | FsEntries.cons (FsEntry.file _ _) rest => forestPaths w p rest
  | FsEntries.cons (FsEntry.other _) rest => forestPaths w p rest
  | FsEntries.cons (FsEntry.dir name FsListing.fail) rest =>
      (p ++ sep w ++ name) :: forestPaths w p rest
  | FsEntries.cons (FsEntry.dir name (FsListing.ok es)) rest =>
      ((p ++ sep w ++ name) :: forestPaths w (p ++ sep w ++ name) es)
        ++ forestPaths w p rest

/-- Paths of all directories in the subtree of a scanned directory: the
directory itself first, then the discovered subdirectories. -/
def treePaths (w : Bool) (p : String) (l : FsListing) : List String :=
  p :: (match l with
    | FsListing.fail => []
    | FsListing.ok es => forestPaths w p es)

/-- Number of directories inside an entry sequence, nested ones
included (the contents of an unreadable directory are invisible). -/
def countDirsForest : FsEntries → Nat
  | FsEntries.nil => 0
  | FsEntries.cons (FsEntry.file _ _) rest => countDirsForest rest
  | FsEntries.cons (FsEntry.other _) rest => countDirsForest rest
  | FsEntries.cons (FsEntry.dir _ FsListing.fail) rest => countDirsForest rest + 1
  | FsEntries.cons (FsEntry.dir _ (FsListing.ok es)) rest =>
      (countDirsForest es + 1) + countDirsForest rest

/-- Number of directories in the subtree of a scanned directory, the
directory itself included. -/
def countDirs (l : FsListing) : Nat :=
  1 + (match l with
    | FsListing.fail => 0
    | FsListing.ok es => countDirsForest es)

theorem forestPaths_length (w : Bool) (p : String) (es : FsEntries) :
    (forestPaths w p es).length = countDirsForest es := by
  induction p, es using forestPaths.induct w
  all_goals simp_all [forestPaths, countDirsForest]
  all_goals omega

theorem scanEntries_rest_paths (w : Bool) (p : String) (fs : FolderStats)
    (es : FsEntries) :
    (scanEntries w p fs es).2.map FolderStats.path = forestPaths w p es := by
  induction p, fs, es using scanEntries.induct w with
  | case1 p fs => simp [scanEntries, forestPaths]
  | case2 p fs name st rest ih => simpa [scanEntries, forestPaths] using ih
  | case3 p fs name rest ih => simpa [scanEntries, forestPaths] using ih
  | case4 p fs name rest full subL ih =>
    simp_all +zetaDelta [scanEntries, forestPaths, emptyStat]
  | case5 p fs name es rest full rsub subL ihsub ih =>
    simp_all +zetaDelta [scanEntries, forestPaths]
    rw [scanEntries_fst_path]
    rfl

theorem scanDirectory_paths (w : Bool) (p : String) (l : FsListing) :
    (scanDirectory w p l).map FolderStats.path = treePaths w p l := by
  cases l with
  | fail => rfl
  | ok es =>
    show ((scanEntries w p (emptyStat p) es).1 :: (scanEntries w p (emptyStat p) es).2).map
        FolderStats.path = treePaths w p (FsListing.ok es)
    simp only [List.map_cons, scanEntries_rest_paths, treePaths]
    rw [scanEntries_fst_path]
    rfl

/-- The finalized records of the immediate subdirectory children of a
directory, given its entry sequence; each is the first record returned by
the recursive scan of that child. -/
def childRootsF (w : Bool) (p : String) : FsEntries → List FolderStats
  | FsEntries.nil => []
  | FsEntries.cons (FsEntry.file _ _) rest => childRootsF w p rest
  | FsEntries.cons (FsEntry.other _) rest => childRootsF w p rest
  | FsEntries.cons (FsEntry.dir name l) rest =>
      scanRoot w (p ++ sep w ++ name) l :: childRootsF w p rest

/-- The finalized records of the immediate subdirectory children of a
directory with this listing (none when the listing could not be read). -/
def childRoots (w : Bool) (p : String) : FsListing → List FolderStats
  | FsListing.fail => []
  | FsListing.ok es => childRootsF w p es

theorem childRootsF_cum_sum (w : Bool) (p : String) (es : FsEntries) :
    ((childRootsF w p es).map FolderStats.cumulativeFileCount).sum + countFiles es
      = countAllFiles es := by
  induction es using childRootsF.induct w p with
  | case1 => simp [childRootsF, countFiles, countAllFiles]
  | case2 name st rest ih =>
    simp [childRootsF, countFiles, countAllFiles]
    omega
  | case3 name rest ih =>
    simp [childRootsF, countFiles, countAllFiles]
    omega
  | case4 name l rest ih =>
    cases l with
    | fail =>
      simp [childRootsF, countFiles, countAllFiles, scanRoot_cum, subtreeFiles]
      omega
    | ok es2 =>
      simp [childRootsF, countFiles, countAllFiles, scanRoot_cum, subtreeFiles]
      omega

/-- JavaScript `p.startsWith(pre)` on the model strings. -/
def jsStartsWith (s pre : String) : Bool := pre.data.isPrefixOf s.data

/-- JavaScript `p.endsWith(suf)` on the model strings. -/
def jsEndsWith (s suf : String) : Bool := suf.data.isSuffixOf s.data

/-- JavaScript `s.substring(n)` on the model strings: the string without
its first `n` units. -/
def jsSubstringFrom (s : String) (n : Nat) : String := String.mk (s.data.drop n)

/-- JavaScript `s.replace(/\\/g, "/")`: every backslash becomes a forward
slash. -/
def replaceBackslashes (s : String) : String :=
  String.mk (s.data.map (fun c => if c = '\\' then '/' else c))

/-- Source line 230: the root path, guaranteed to end with the platform
separator. -/
def rootWithSeparator (w : Bool) (rootPath : String) : String :=
  if jsEndsWith rootPath (sep w) then rootPath else rootPath ++ sep w

/-- The display path of one record (source lines 261-272): the root shows
as the sentinel, paths under the root show as the sentinel plus the
slash-normalized remainder, anything else shows verbatim. -/
def displayPath (w : Bool) (rootPath p : String) : String :=
  if p = rootPath then "(root)"
  else if jsStartsWith p (rootWithSeparator w rootPath) then
    "(root)/" ++ replaceBackslashes (jsSubstringFrom p (rootWithSeparator w rootPath).length)
  else p

/-- A calendar date as the source's `Date` accessors expose it:
`getFullYear()` (any integer), `getMonth()` (0 to 11), `getDate()`
(1 to 31). -/
structure JDate where
  year : Int
  month : Nat
  day : Nat
  month_lt : month < 12
  day_ge : 1 ≤ day
  day_le : day ≤ 31

/-- JavaScript `String(x).padStart(2, "0")`: left-pad with zeros to two
units. -/
def padStart2 (s : String) : String :=
  if 2 ≤ s.length then s else String.mk (List.replicate (2 - s.length) '0') ++ s

/-- Model of `formatDate` (source lines 209-215): `"-"` for a null date,
otherwise the template `year-month-day` with month and day padded to two
digits and the year rendered by plain string conversion. -/
def formatDate : Option JDate → String
  | none => "-"
  | some d =>
      toString d.year ++ "-" ++ padStart2 (toString (d.month + 1))
        ++ "-" ++ padStart2 (toString d.day)

/-- The Files cell of one row (source line 276): the template
`fileCount (cumulativeFileCount)`. -/
def filesCell (s : FolderStats) : String :=
  toString s.fileCount ++ " (" ++ toString s.cumulativeFileCount ++ ")"

/-- The guard of the early-return branch of `displayResults` (source line
223): true exactly when the record list is empty. -/
def displayResultsEmpty (stats : List FolderStats) : Bool := stats.length == 0

theorem jsStartsWith_append (pre rem : String) :
    jsStartsWith (pre ++ rem) pre = true := by
  unfold jsStartsWith
  rw [String.data_append, List.isPrefixOf_iff_prefix]
  exact List.prefix_append pre.data rem.data

theorem jsSubstringFrom_append (pre rem : String) :
    jsSubstringFrom (pre ++ rem) pre.length = rem := by
  unfold jsSubstringFrom
  rw [String.data_append]
  rw [show pre.length = pre.data.length from rfl]
  rw [List.drop_left]

theorem pad2_two_digits : ∀ n : Nat, n ≤ 31 → (padStart2 (toString n)).length = 2 := by
  intro n hn
  interval_cases n <;> rfl

/-- C1: for every directory visited by the scan (each visit is a
`scanRoot`/`scanDirectory` invocation on that directory's path and
listing), the finalized record — the first element of the returned list —
has `cumulativeFileCount` equal to its own `fileCount` plus the sum of the
`cumulativeFileCount` of the finalized records of its immediate
subdirectory children. -/
theorem spec_C1 (w : Bool) (p : String) (l : FsListing) :
    (scanDirectory w p l).head? = some (scanRoot w p l) ∧
    (scanRoot w p l).cumulativeFileCount
      = (scanRoot w p l).fileCount
        + ((childRoots w p l).map FolderStats.cumulativeFileCount).sum := by
  constructor
  · rw [scanDirectory_eq_cons]; rfl
  · cases l with
    | fail => rfl
    | ok es =>
      rw [scanRoot_cum, scanRoot_fileCount]
      show countAllFiles es
        = countFiles es
          + ((childRootsF w p es).map FolderStats.cumulativeFileCount).sum
      have h := childRootsF_cum_sum w p es
      omega

/-- C2: a directory's `latestCreated` is the maximum of the creation
times known for the files of its entire subtree — it is some maximum
element of that collection, an upper bound of it, present exactly when the
collection is non-empty — and the same holds for `latestModified` with
modification times. -/
theorem spec_C2 (w : Bool) (p : String) (l : FsListing) :
    (subtreeCreated l = [] → (scanRoot w p l).latestCreated = none) ∧
    (∀ m : Int, (scanRoot w p l).latestCreated = some m →
        m ∈ subtreeCreated l ∧ ∀ t ∈ subtreeCreated l, t ≤ m) ∧
    (subtreeCreated l ≠ [] →
        ∃ m : Int, (scanRoot w p l).latestCreated = some m) ∧
    (subtreeModified l = [] → (scanRoot w p l).latestModified = none) ∧
    (∀ m : Int, (scanRoot w p l).latestModified = some m →
        m ∈ subtreeModified l ∧ ∀ t ∈ subtreeModified l, t ≤ m) ∧
    (subtreeModified l ≠ [] →
        ∃ m : Int, (scanRoot w p l).latestModified = some m) := by
  have hc := scanRoot_created w p l
  have hm := scanRoot_modified w p l
  refine ⟨?_, ?_, ?_, ?_, ?_, ?_⟩
  · intro h; rw [hc, h]; rfl
  · intro m hmm
    rw [hc] at hmm
    exact ⟨listMax_mem _ m hmm, fun t ht => listMax_le _ t m ht hmm⟩
  · intro h
    rw [hc]
    cases hM : listMax (subtreeCreated l) with
    | none => exact absurd ((listMax_eq_none_iff _).mp hM) h
    | some M => exact ⟨M, rfl⟩
  · intro h; rw [hm, h]; rfl
  · intro m hmm
    rw [hm] at hmm
    exact ⟨listMax_mem _ m hmm, fun t ht => listMax_le _ t m ht hmm⟩
  · intro h
    rw [hm]
    cases hM : listMax (subtreeModified l) with
    | none => exact absurd ((listMax_eq_none_iff _).mp hM) h
    | some M => exact ⟨M, rfl⟩

/-- C3: the scan returns one record per directory of the subtree, in
discovery order — the record paths are exactly the subtree's directory
paths in that order — so the list length is the number of directories
including the root, and the root's own record is the first element. -/
theorem spec_C3 (w : Bool) (p : String) (l : FsListing) :
    (scanDirectory w p l).map FolderStats.path = treePaths w p l ∧
    (scanDirectory w p l).length = countDirs l ∧
    (scanDirectory w p l).head? = some (scanRoot w p l) := by
  refine ⟨scanDirectory_paths w p l, ?_, ?_⟩
  · have h := congrArg List.length (scanDirectory_paths w p l)
    rw [List.length_map] at h
    rw [h]
    cases l with
    | fail => rfl
    | ok es =>
      simp [treePaths, countDirs, forestPaths_length]
      omega
  · rw [scanDirectory_eq_cons]; rfl

/-- C4: an enumeration failure is absorbed locally: the failed directory's
record is returned alone, with identity values (no timestamps, zero
counts), and when a parent encounters such a child the parent's own record
and the processing of the remaining sibling entries are exactly what they
would have been with no child contribution, the child's empty record
merely being appended to the output.  (The `console.error` diagnostic is
an I/O effect outside the embedding.) -/
theorem spec_C4 (w : Bool) (p name : String) (fs : FolderStats) (rest : FsEntries) :
    scanDirectory w p FsListing.fail
      = [{ path := p, latestCreated := none, latestModified := none,
           fileCount := 0, cumulativeFileCount := 0 }] ∧
    scanEntries w p fs (FsEntries.cons (FsEntry.dir name FsListing.fail) rest)
      = ((scanEntries w p fs rest).1,
         emptyStat (p ++ sep w ++ name) :: (scanEntries w p fs rest).2) := by
  constructor
  · rfl
  · simp [scanEntries, childFold_emptyList]

/-- C5: every record in a scan's output has `latestCreated` (resp.
`latestModified`) bounded by the root record's value of the same field
whenever present — in particular the field of a directory is at least that
of every descendant directory when both are present — and the root's field
is absent exactly when no file in the subtree has that timestamp. -/
theorem spec_C5 (w : Bool) (p : String) (l : FsListing) :
    (∀ s ∈ scanDirectory w p l,
       (∀ m : Int, s.latestCreated = some m →
          ∃ M : Int, (scanRoot w p l).latestCreated = some M ∧ m ≤ M) ∧
       (∀ m : Int, s.latestModified = some m →
          ∃ M : Int, (scanRoot w p l).latestModified = some M ∧ m ≤ M)) ∧
    ((scanRoot w p l).latestCreated = none ↔ subtreeCreated l = []) ∧
    ((scanRoot w p l).latestModified = none ↔ subtreeModified l = []) := by
  refine ⟨?_, ?_, ?_⟩
  · intro s hs
    rw [scanDirectory_eq_cons, List.mem_cons] at hs
    rcases hs with rfl | hs
    · exact ⟨fun m hmm => ⟨m, hmm, le_refl m⟩, fun m hmm => ⟨m, hmm, le_refl m⟩⟩
    · constructor
      · intro m hmm
        have hmem : m ∈ subtreeCreated l := by
          cases l with
          | fail => simp [scanRest] at hs
          | ok es => exact scanEntries_rest_created w p (emptyStat p) es s hs m hmm
        cases hM : listMax (subtreeCreated l) with
        | none =>
          rw [(listMax_eq_none_iff _).mp hM] at hmem
          simp at hmem
        | some M =>
          exact ⟨M, by rw [scanRoot_created, hM],
                 listMax_le (subtreeCreated l) m M hmem hM⟩
      · intro m hmm
        have hmem : m ∈ subtreeModified l := by
          cases l with
          | fail => simp [scanRest] at hs
          | ok es => exact scanEntries_rest_modified w p (emptyStat p) es s hs m hmm
        cases hM : listMax (subtreeModified l) with
        | none =>
          rw [(listMax_eq_none_iff _).mp hM] at hmem
          simp at hmem
        | some M =>
          exact ⟨M, by rw [scanRoot_modified, hM],
                 listMax_le (subtreeModified l) m M hmem hM⟩
  · rw [scanRoot_created]; exact listMax_eq_none_iff _
  · rw [scanRoot_modified]; exact listMax_eq_none_iff _

/-- C6: a stat failure is non-fatal and local: `getFileStats` turns it
into null timestamps, so the file still increments both counters by one
while leaving both latest-timestamp fields unchanged, and the scan simply
proceeds with the remaining entries from that updated record. -/
theorem spec_C6 (w : Bool) (p name : String) (fs : FolderStats) (rest : FsEntries) :
    getFileStats none = { birthtime := none, mtime := none } ∧
    updateFile fs (getFileStats none)
      = { fs with fileCount := fs.fileCount + 1,
                  cumulativeFileCount := fs.cumulativeFileCount + 1 } ∧
    scanEntries w p fs (FsEntries.cons (FsEntry.file name none) rest)
      = scanEntries w p
          { fs with fileCount := fs.fileCount + 1,
                    cumulativeFileCount := fs.cumulativeFileCount + 1 } rest := by
  have h2 : updateFile fs (getFileStats none)
      = { fs with fileCount := fs.fileCount + 1,
                  cumulativeFileCount := fs.cumulativeFileCount + 1 } := by
    simp [updateFile, getFileStats, pushTime_none]
  refine ⟨rfl, h2, ?_⟩
  simp only [scanEntries, h2]

/-- C7: the recursive call on a child directory returns the child's own
finalized record first, that first record is the only returned record
whose path equals the child's full path, and therefore the source's
linear scan of the returned list for a path match computes exactly the
fold of that first record into the parent. -/
theorem spec_C7 (w : Bool) (full : String) (l : FsListing) (fs : FolderStats) :
    (scanDirectory w full l).head? = some (scanRoot w full l) ∧
    (scanRoot w full l).path = full ∧
    (∀ s ∈ (scanDirectory w full l).tail, s.path ≠ full) ∧
    childFold full fs (scanDirectory w full l) = foldChild fs (scanRoot w full l) := by
  refine ⟨?_, scanRoot_path w full l, ?_, ?_⟩
  · rw [scanDirectory_eq_cons]; rfl
  · rw [scanDirectory_eq_cons]
    intro s hs
    exact scanRest_path_ne w full l s (by simpa using hs)
  · cases l with
    | fail =>
      show childFold full fs [emptyStat full] = foldChild fs (emptyStat full)
      rw [childFold_emptyList, foldChild_emptyStat]
    | ok es => exact childFold_scanPair w full es fs

/-- C10: on every input, readable or not, the scan returns a non-empty
list whose first element is the record of the input path itself, so the
empty-list branch of `displayResults` can never be taken on the scan's
output. -/
theorem spec_C10 (w : Bool) (p : String) (l : FsListing) :
    scanDirectory w p l ≠ [] ∧
    (scanDirectory w p l).head? = some (scanRoot w p l) ∧
    (scanRoot w p l).path = p ∧
    displayResultsEmpty (scanDirectory w p l) = false := by
  rw [scanDirectory_eq_cons]
  exact ⟨by simp, rfl, scanRoot_path w p l, by simp [displayResultsEmpty]⟩

/-- C8: the display path of a record is the sentinel `(root)` for the root
path itself; for any other path that extends the root-with-separator
prefix it is the sentinel, a slash, and the remainder with every backslash
separator rewritten to a slash; and any other path not under that prefix
displays verbatim. -/
theorem spec_C8 (w : Bool) (root : String) :
    displayPath w root root = "(root)" ∧
    (∀ p rem : String, p ≠ root → p = rootWithSeparator w root ++ rem →
        displayPath w root p = "(root)/" ++ replaceBackslashes rem) ∧
    (∀ p : String, p ≠ root → jsStartsWith p (rootWithSeparator w root) = false →
        displayPath w root p = p) := by
  refine ⟨?_, ?_, ?_⟩
  · simp [displayPath]
  · intro p rem hne heq
    subst heq
    simp only [displayPath]
    rw [if_neg hne,
      if_pos (jsStartsWith_append (rootWithSeparator w root) rem),
      jsSubstringFrom_append]
  · intro p hne hsw
    simp only [displayPath]
    rw [if_neg hne, if_neg (by simp [hsw])]

/-- C9, counterexample to the four-digit-year part of the claim: a file
timestamp in the year 999 is rendered by `formatDate` with a three-digit
year field, because the source pads the month and the day but not the
year.  The segment before the first dash of the rendered string has length
three, not four. -/
theorem spec_C9_cex :
    formatDate (some
        ⟨999, 0, 1, Nat.lt_of_sub_eq_succ rfl, Nat.le_refl 1,
         Nat.le_of_sub_eq_zero rfl⟩)
      = "999-01-01" ∧
    ("999-01-01".data.takeWhile (fun c => c != '-')).length = 3 := by
  constructor
  · decide
  · decide

/-- C9 as amended: an absent timestamp renders as `-`; a present
timestamp renders as the decimal year (unpadded, so four digits exactly
for years 1000 to 9999), a dash, the two-digit zero-padded month, a dash,
and the two-digit zero-padded day; and the Files cell renders as the file
count, a space, and the cumulative count in parentheses. -/
theorem spec_C9 (r : FolderStats) :
    formatDate none = "-" ∧
    (∀ d : JDate, ∃ ms ds : String,
        ms.length = 2 ∧ ds.length = 2 ∧
        formatDate (some d) = toString d.year ++ "-" ++ ms ++ "-" ++ ds) ∧
    filesCell r
      = toString r.fileCount ++ " (" ++ toString r.cumulativeFileCount ++ ")" := by
  refine ⟨rfl, ?_, rfl⟩
  intro d
  refine ⟨padStart2 (toString (d.month + 1)), padStart2 (toString d.day),
    ?_, ?_, rfl⟩
  · exact pad2_two_digits (d.month + 1) (by have := d.month_lt; omega)
  · exact pad2_two_digits d.day d.day_le

/-- Convenience constructor for concrete entry sequences. -/
def entriesOfList : List FsEntry → FsEntries
  | [] => FsEntries.nil
  | e :: rest => FsEntries.cons e (entriesOfList rest)

/-- A small concrete listing exercised by the witnesses: two files (one
with a failing stat), an ignored entry, a readable subdirectory with one
file, and an unreadable subdirectory. -/
def sampleTree : FsEntries := entriesOfList
  [FsEntry.file "a.txt" (some { birthtime := some 5, mtime := some 7 }),
   FsEntry.file "broken.txt" none,
   FsEntry.other "link",
   FsEntry.dir "sub" (FsListing.ok (entriesOfList
     [FsEntry.file "b.txt" (some { birthtime := some 9, mtime := some 3 })])),
   FsEntry.dir "denied" FsListing.fail]

theorem spec_C1_witness :
    (scanRoot false "/r" (FsListing.ok sampleTree)).cumulativeFileCount
      = (scanRoot false "/r" (FsListing.ok sampleTree)).fileCount
        + ((childRoots false "/r" (FsListing.ok sampleTree)).map
            FolderStats.cumulativeFileCount).sum ∧
    (scanRoot false "/r" (FsListing.ok sampleTree)).cumulativeFileCount = 3 :=
  ⟨(spec_C1 false "/r" (FsListing.ok sampleTree)).2, by decide⟩

theorem spec_C2_witness :
    (scanRoot false "/r" (FsListing.ok sampleTree)).latestCreated = some 9 ∧
    (9 : Int) ∈ subtreeCreated (FsListing.ok sampleTree) ∧
    ∀ t ∈ subtreeCreated (FsListing.ok sampleTree), t ≤ 9 := by
  have hv : (scanRoot false "/r" (FsListing.ok sampleTree)).latestCreated
      = some 9 := by decide
  have h := (spec_C2 false "/r" (FsListing.ok sampleTree)).2.1 9 hv
  exact ⟨hv, h.1, h.2⟩

theorem spec_C3_witness :
    (scanDirectory false "/r" (FsListing.ok sampleTree)).length
      = countDirs (FsListing.ok sampleTree) ∧
    (scanDirectory false "/r" (FsListing.ok sampleTree)).length = 3 :=
  ⟨(spec_C3 false "/r" (FsListing.ok sampleTree)).2.1, by decide⟩

theorem spec_C4_witness :
    scanDirectory false "/denied" FsListing.fail
      = [{ path := "/denied", latestCreated := none, latestModified := none,
           fileCount := 0, cumulativeFileCount := 0 }] :=
  (spec_C4 false "/denied" "x" (emptyStat "/q") FsEntries.nil).1

theorem spec_C5_witness :
    ∃ M : Int, (scanRoot false "/r" (FsListing.ok sampleTree)).latestModified
      = some M ∧ 3 ≤ M := by
  have hmem : (⟨"/r/sub", some 9, some 3, 1, 1⟩ : FolderStats)
      ∈ scanDirectory false "/r" (FsListing.ok sampleTree) := by decide
  exact ((spec_C5 false "/r" (FsListing.ok sampleTree)).1 _ hmem).2 3 rfl

theorem spec_C6_witness :
    updateFile ⟨"/r", some 5, none, 1, 2⟩ (getFileStats none)
      = ⟨"/r", some 5, none, 2, 3⟩ := by
  have h := (spec_C6 false "/r" "f" (⟨"/r", some 5, none, 1, 2⟩ : FolderStats)
    FsEntries.nil).2.1
  rw [h]

theorem spec_C7_witness :
    childFold "/r" (emptyStat "/q")
        (scanDirectory false "/r" (FsListing.ok (entriesOfList
          [FsEntry.dir "sub" (FsListing.ok (entriesOfList
            [FsEntry.file "b.txt" (some { birthtime := some 4, mtime := some 6 })]))])))
      = foldChild (emptyStat "/q")
          (scanRoot false "/r" (FsListing.ok (entriesOfList
            [FsEntry.dir "sub" (FsListing.ok (entriesOfList
              [FsEntry.file "b.txt" (some { birthtime := some 4, mtime := some 6 })]))]))) ∧
    (⟨"/r/sub", some 4, some 6, 1, 1⟩ : FolderStats).path ≠ "/r" := by
  have h := spec_C7 false "/r" (FsListing.ok (entriesOfList
    [FsEntry.dir "sub" (FsListing.ok (entriesOfList
      [FsEntry.file "b.txt" (some { birthtime := some 4, mtime := some 6 })]))]))
    (emptyStat "/q")
  refine ⟨h.2.2.2, ?_⟩
  apply h.2.2.1
  decide

theorem spec_C8_witness :
    displayPath false "/r" "/r/a\\b" = "(root)/a/b" ∧
    displayPath false "/r" "/r" = "(root)" ∧
    displayPath false "/r" "/elsewhere" = "/elsewhere" := by
  have h := spec_C8 false "/r"
  refine ⟨?_, h.1, ?_⟩
  · have h2 := h.2.1 "/r/a\\b" "a\\b" (by decide) (by decide)
    rw [h2]
    decide
  · exact h.2.2 "/elsewhere" (by decide) (by decide)

theorem spec_C9_witness :
    formatDate none = "-" ∧
    filesCell ⟨"/r", none, none, 3, 7⟩ = "3 (7)" := by
  have h := spec_C9 (⟨"/r", none, none, 3, 7⟩ : FolderStats)
  refine ⟨h.1, ?_⟩
  rw [h.2.2]
  decide

theorem spec_C10_witness :
    scanDirectory false "/missing" FsListing.fail ≠ [] ∧
    displayResultsEmpty (scanDirectory false "/missing" FsListing.fail) = false :=
  ⟨(spec_C10 false "/missing" FsListing.fail).1,
   (spec_C10 false "/missing" FsListing.fail).2.2.2⟩
